import Mathlib

/-!
Shallow embedding of `src/BitBucketBranchSanitizer.py`.

Remote effects (HTTP calls of the Bitbucket REST API) are modelled by a
`World` record of response functions, and every operation additionally
returns the list of outbound calls it makes (`Event`), so that ordering
and counting properties of the remote calls can be stated.  Dates are
modelled at day granularity as integers (day ordinals): the source parses
`%Y-%m-%d` strings and subtracts `datetime.date` values, whose `.days`
is exactly the difference of the day ordinals (possibly negative).
Python exceptions are modelled as `Except.error`.
-/

set_option autoImplicit false

/-- A live branch as returned by the `get_branches` endpoint: the fields
`displayId` and `latestCommit` are the only ones the program reads. -/
structure Branch where
  displayId : String
  latestCommit : String
  deriving DecidableEq, Repr

/-- One result row, persisted to `results/state.json` and reported:
the Python code represents it as the 4-element list
`[branchName, commitRef, inactivityDays, status]`. -/
structure ResultRow where
  branchName : String
  commitRef : String
  inactivityDays : Int
  status : String
  deriving DecidableEq, Repr

/-- A branch-permission restriction as returned by the
`get_branch_permissions` endpoint: the program reads `id` and
`matcher.displayId`. -/
structure Perm where
  permId : Nat
  matcherDisplayId : String
  deriving DecidableEq, Repr

/-- The configuration assembled by `load_config` (the parts the core
reads): exclusion list and the threshold table.  The threshold table is a
Python dict `str -> int`; keys are unique. -/
structure Config where
  branches_to_exclude : List String
  thresholds : List (String × Int)
  deriving DecidableEq, Repr

/-- Python dict lookup on an association list (first matching key). -/
def lookupTable : List (String × Int) → String → Option Int
  | [], _ => none
  | (k, v) :: rest, key => if k == key then some v else lookupTable rest key

/-- An outbound remote call made by the core. -/
inductive Event where
  | commitLookup (commitRef : String)
  | permGet
  | permDelete (permId : Nat)
  | branchDelete (name : String) (commitRef : String)
  deriving DecidableEq, Repr

/-- `true` exactly on `Event.commitLookup` events. -/
def Event.isCommitLookup : Event → Bool
  | Event.commitLookup _ => true
  | _ => false

/-- The remote world: commit dates by commit reference (day ordinal of the
`committerTimestamp` date), and response status codes of the
permission/branch endpoints. -/
structure World where
  commitDate : String → Int
  permGetStatus : Nat
  permissions : List Perm
  permDeleteStatus : Nat → Nat
  branchDeleteStatus : String → Nat

/-- `load_config` (source lines 146-166): the effective exclusion list is
`["master", "develop"] + branches_to_exclude` from the config file; the
threshold table is passed through. -/
def load_config (branches_to_exclude : List String)
    (thresholds : List (String × Int)) : Config :=
  { branches_to_exclude := ["master", "develop"] ++ branches_to_exclude
    thresholds := thresholds }

/-- The characters before the first `/`. -/
def takeUntilSlash : List Char → List Char
  | [] => []
  | c :: rest => if c == '/' then [] else c :: takeUntilSlash rest

/-- Python's `branch_name.split("/")[0]`: everything before the first `/`
(the whole string when it contains no `/`). -/
def firstSegment (s : String) : String :=
  String.mk (takeUntilSlash s.data)

/-- `get_threshold` (source lines 214-221): the key is the text before the
first `/` of the branch name; fall back to the `"default"` entry.  A
missing `"default"` key would raise `KeyError` in Python, modelled as
`none`. -/
def get_threshold (branch_name : String) (config : Config) : Option Int :=
  match lookupTable config.thresholds (firstSegment branch_name) with
  | some t => some t
  | none => lookupTable config.thresholds "default"

/-- `delete_branch` (source lines 187-196): one DELETE call with body
`{name, endPoint}`; any status other than 204 raises `ValueError`, a 204
yields the string `"DELETED"`. -/
def delete_branch (w : World) (name : String) (endPoint : String) :
    List Event × Except String String :=
  ([Event.branchDelete name endPoint],
    if w.branchDeleteStatus name ≠ 204 then
      Except.error ("Error deleting " ++ name ++ " branch")
    else Except.ok "DELETED")

/-- The permission-deletion loop of `delete_branch_permissions` (source
lines 205-211): for every restriction whose matcher display id equals the
branch name, issue one DELETE; a status other than 204 raises. -/
def delete_perms_loop (w : World) (branch_name : String) :
    List Perm → List Event × Except String Unit
  | [] => ([], Except.ok ())
  | p :: rest =>
    if p.matcherDisplayId == branch_name then
      if w.permDeleteStatus p.permId ≠ 204 then
        ([Event.permDelete p.permId],
          Except.error ("Error deleting " ++ branch_name ++ " branch permissions"))
      else
        let r := delete_perms_loop w branch_name rest
        (Event.permDelete p.permId :: r.1, r.2)
    else delete_perms_loop w branch_name rest

/-- `delete_branch_permissions` (source lines 199-211): GET the
restriction list (non-200 raises `ValueError`), then delete every
matching restriction.  A branch with no matching restriction finishes
without error and without any DELETE call. -/
def delete_branch_permissions (w : World) (branch_name : String) :
    List Event × Except String Unit :=
  if w.permGetStatus ≠ 200 then ([Event.permGet], Except.error "branch permissions lookup failed")
  else
    let r := delete_perms_loop w branch_name w.permissions
    (Event.permGet :: r.1, r.2)

/-- `filter_branches` (source lines 300-321): excluded branches yield
`None` with no remote call; otherwise resolve the threshold (line 313),
look up the last commit date (lines 315-318), compute
`delta = today - last_commit_date` in days, and classify with
`"RETAINED" if delta <= threshold else "MARKED FOR DELETION"`. -/
def filter_branches (w : World) (today : Int) (config : Config)
    (branch_info : Branch) : List Event × Except String (Option ResultRow) :=
  if config.branches_to_exclude.contains branch_info.displayId then
    ([], Except.ok none)
  else
    match get_threshold branch_info.displayId config with
    | none => ([], Except.error "KeyError")
    | some threshold =>
      let delta : Int := today - w.commitDate branch_info.latestCommit
      let status := if delta ≤ threshold then "RETAINED" else "MARKED FOR DELETION"
      ([Event.commitLookup branch_info.latestCommit],
        Except.ok (some ⟨branch_info.displayId, branch_info.latestCommit, delta, status⟩))

/-- The reconciliation loop of `process_branches_for_deletion` (source
lines 344-354): scan the live branch list; on a name match, reuse the
stored delta when the commit reference is unchanged, otherwise fetch the
commit date of the new reference and recompute the delta against today.
Python's `delta` variable keeps the value of the *last* assignment; it is
`none` here when no live branch matched (unassigned local). -/
def reconcile_loop (w : World) (today : Int) (branch_name : String)
    (latest_commit : String) (stored_delta : Int) :
    List Branch → Option Int × List Event
  | [] => (none, [])
  | b :: rest =>
    let cur : Option Int × List Event :=
      if b.displayId == branch_name then
        if b.latestCommit == latest_commit then (some stored_delta, [])
        else (some (today - w.commitDate b.latestCommit),
          [Event.commitLookup b.latestCommit])
      else (none, [])
    let r := reconcile_loop w today branch_name latest_commit stored_delta rest
    (match r.1 with
      | some d => some d
      | none => cur.1, cur.2 ++ r.2)

/-- The destructive delete sequence of `process_branches_for_deletion`
(source lines 358-365): permission deletion first; if it raises, the
branch DELETE is never issued. -/
def delete_sequence (w : World) (branch_name : String)
    (latest_commit : String) : List Event × Except String String :=
  match (delete_branch_permissions w branch_name).2 with
  | Except.error e => ((delete_branch_permissions w branch_name).1, Except.error e)
  | Except.ok _ =>
    ((delete_branch_permissions w branch_name).1 ++ (delete_branch w branch_name latest_commit).1,
      (delete_branch w branch_name latest_commit).2)

/-- `process_branches_for_deletion` (source lines 324-366): reconcile the
stored row against the live branch list, resolve the threshold (line 356,
before `int(delta)` is read), and delete only when
`delta > threshold and status == "MARKED FOR DELETION"`; otherwise return
the row with the stored status.  When no live branch matched, reading
`delta` raises `UnboundLocalError`. -/
def process_branches_for_deletion (w : World) (today : Int) (config : Config)
    (branch_info : ResultRow) (branches : List Branch) :
    List Event × Except String ResultRow :=
  match get_threshold branch_info.branchName config with
  | none =>
    ((reconcile_loop w today branch_info.branchName branch_info.commitRef
        branch_info.inactivityDays branches).2, Except.error "KeyError")
  | some threshold =>
    match (reconcile_loop w today branch_info.branchName branch_info.commitRef
        branch_info.inactivityDays branches).1 with
    | none =>
      ((reconcile_loop w today branch_info.branchName branch_info.commitRef
          branch_info.inactivityDays branches).2, Except.error "UnboundLocalError: delta")
    | some delta =>
      if delta > threshold ∧ branch_info.status = "MARKED FOR DELETION" then
        match (delete_sequence w branch_info.branchName branch_info.commitRef).2 with
        | Except.error e =>
          ((reconcile_loop w today branch_info.branchName branch_info.commitRef
              branch_info.inactivityDays branches).2
            ++ (delete_sequence w branch_info.branchName branch_info.commitRef).1,
            Except.error e)
        | Except.ok st =>
          ((reconcile_loop w today branch_info.branchName branch_info.commitRef
              branch_info.inactivityDays branches).2
            ++ (delete_sequence w branch_info.branchName branch_info.commitRef).1,
            Except.ok ⟨branch_info.branchName, branch_info.commitRef, delta, st⟩)
      else
        ((reconcile_loop w today branch_info.branchName branch_info.commitRef
            branch_info.inactivityDays branches).2,
          Except.ok ⟨branch_info.branchName, branch_info.commitRef, delta,
            branch_info.status⟩)

/-- The delete-day `asyncio.gather` batch of `main` (source lines
435-449): the coroutines contain no `await`, so the event loop runs each
scheduled task to completion in creation order; every task's remote calls
happen, and with `return_exceptions` unset the first exception (in task
order) is re-raised from the `await`, discarding the result list. -/
def gather_deletions (w : World) (today : Int) (config : Config)
    (branches : List Branch) : List ResultRow → List Event × Except String (List ResultRow)
  | [] => ([], Except.ok [])
  | bi :: rest =>
    ((process_branches_for_deletion w today config bi branches).1
        ++ (gather_deletions w today config branches rest).1,
      match (process_branches_for_deletion w today config bi branches).2 with
      | Except.error e => Except.error e
      | Except.ok row =>
        match (gather_deletions w today config branches rest).2 with
        | Except.error e => Except.error e
        | Except.ok rows => Except.ok (row :: rows))

/-- The scan-day `asyncio.gather` batch of `main` (source lines 419-430):
same task semantics as `gather_deletions`, collecting one
`Option ResultRow` per branch. -/
def gather_scan (w : World) (today : Int) (config : Config) :
    List Branch → List Event × Except String (List (Option ResultRow))
  | [] => ([], Except.ok [])
  | b :: rest =>
    ((filter_branches w today config b).1 ++ (gather_scan w today config rest).1,
      match (filter_branches w today config b).2 with
      | Except.error e => Except.error e
      | Except.ok o =>
        match (gather_scan w today config rest).2 with
        | Except.error e => Except.error e
        | Except.ok os => Except.ok (o :: os))

/-- The scan-day result list of `main` (source line 432): drop the `None`
entries of the excluded branches. -/
def scan_repository (w : World) (today : Int) (config : Config)
    (branches : List Branch) : List Event × Except String (List ResultRow) :=
  ((gather_scan w today config branches).1,
    match (gather_scan w today config branches).2 with
    | Except.error e => Except.error e
    | Except.ok os => Except.ok (os.filterMap id))

/-- The persisted state document `results/state.json`: a Python dict from
repository name to result rows, modelled as an association list with
unique keys in insertion order. -/
abbrev StateDoc := List (String × List ResultRow)

/-- Python dict lookup (`repository in data` / `data[repository]`). -/
def lookupState : StateDoc → String → Option (List ResultRow)
  | [], _ => none
  | (k, v) :: rest, key => if k == key then some v else lookupState rest key

/-- Python dict assignment `data[repository] = results`: replace in place
when the key exists, else append. -/
def setState : StateDoc → String → List ResultRow → StateDoc
  | [], key, v => [(key, v)]
  | (k, v') :: rest, key, v =>
    if k == key then (key, v) :: rest else (k, v') :: setState rest key v

/-- `write_to_json` (source lines 234-244): when a state file exists, read
it and assign `data[repository] = results` only if the repository is
absent or the stored entry's length differs; otherwise leave the entry
untouched.  With no state file, start from `{repository: results}`.  The
whole document is then written back. -/
def write_to_json (existing : Option StateDoc) (repository : String)
    (results : List ResultRow) : StateDoc :=
  match existing with
  | none => [(repository, results)]
  | some data =>
    match lookupState data repository with
    | none => setState data repository results
    | some prior =>
      if prior.length ≠ results.length then setState data repository results
      else data

/-- A step of `main` visible at top level. -/
inductive MainEvent where
  | rmtreeResults
  | osPathCall
  | mkdirResults
  | repoEvent (repository : String) (e : Event)
  deriving DecidableEq, Repr

/-- The expression `os.path("results")` of `main` (source line 391):
`os.path` is a module object, not a callable, so evaluating it raises
`TypeError` unconditionally. -/
def os_path_call (_arg : String) : Except String Bool :=
  Except.error "TypeError: module object is not callable"

/-- `main` (source lines 369-451) after argument parsing, config load and
repository listing: remove a stale `results` directory on non-delete
days, then evaluate `if not os.path("results")` — whose `TypeError`
propagates before the repository loop is entered.  The per-repository
work is abstracted as `processRepo`, which is never reached. -/
def main_run (resultsDirExists : Bool) (is_friday : Bool)
    (processRepo : String → List MainEvent) (repositories : List String) :
    List MainEvent × Except String Unit :=
  let evs0 := if resultsDirExists && !is_friday then [MainEvent.rmtreeResults] else []
  match os_path_call "results" with
  | Except.error e => (evs0 ++ [MainEvent.osPathCall], Except.error e)
  | Except.ok b =>
    let evs1 := if ¬ b then [MainEvent.mkdirResults] else []
    (evs0 ++ [MainEvent.osPathCall] ++ evs1
      ++ (repositories.map processRepo).flatten, Except.ok ())

/-- The `__main__` guard (source lines 454-463): any exception escaping
`main` is logged and the process exits with status 1. -/
def program_exit_code (resultsDirExists : Bool) (is_friday : Bool)
    (processRepo : String → List MainEvent) (repositories : List String) : Nat :=
  match (main_run resultsDirExists is_friday processRepo repositories).2 with
  | Except.ok _ => 0
  | Except.error _ => 1

/-! Concrete fixtures used by the witnesses and counterexamples. -/

/-- A threshold table with a `release` rule and the mandatory default. -/
def cfgStd : Config := load_config [] [("release", 30), ("default", 45)]

/-- A world where every commit dates to day 0 and every remote call
succeeds. -/
def wZero : World := ⟨fun _ => 0, 200, [], fun _ => 204, fun _ => 204⟩

/-- A world where every commit dates to day 5 (in the future of day 0). -/
def wFuture : World := ⟨fun _ => 5, 200, [], fun _ => 204, fun _ => 204⟩

/-- A world where the permission GET returns 500. -/
def wPermFail : World := ⟨fun _ => 0, 500, [], fun _ => 204, fun _ => 204⟩

/-- A world where deleting branch `b1` returns 500 and everything else
succeeds. -/
def wDelFail : World :=
  ⟨fun _ => 0, 200, [], fun _ => 204, fun n => if n == "b1" then 500 else 204⟩

def bFeature : Branch := ⟨"feature/x", "c1"⟩

def rowB1 : ResultRow := ⟨"b1", "c1", 60, "MARKED FOR DELETION"⟩

def rowB2 : ResultRow := ⟨"b2", "c2", 60, "MARKED FOR DELETION"⟩

def liveB : List Branch := [⟨"b1", "c1"⟩, ⟨"b2", "c2"⟩]

def liveDrift : List Branch := [⟨"b1", "c9"⟩]

def rowRet : ResultRow := ⟨"feature/x", "c2", 19, "RETAINED"⟩

def liveRet : List Branch := [⟨"feature/x", "c2"⟩]

def rowStale : ResultRow := ⟨"stale/x", "c7", 99, "MARKED FOR DELETION"⟩

def liveStale : List Branch := [⟨"stale/x", "c7"⟩]

def rowGone : ResultRow := ⟨"gone", "c9", 60, "MARKED FOR DELETION"⟩

def liveOther : List Branch := [⟨"other", "c1"⟩]

def branchesWithMaster : List Branch := [⟨"master", "cm"⟩, ⟨"feature/x", "c2"⟩]

/-! Helper lemmas shared by the claim theorems. -/

theorem reconcile_loop_events_shape (w : World) (today : Int) (name commit : String)
    (stored : Int) (bs : List Branch) :
    ∀ e ∈ (reconcile_loop w today name commit stored bs).2, ∃ c, e = Event.commitLookup c := by
  induction bs with
  | nil => intro e he; simp [reconcile_loop] at he
  | cons b rest ih =>
    intro e he
    simp only [reconcile_loop] at he
    rcases List.mem_append.mp he with h | h
    · by_cases h1 : b.displayId == name
      · by_cases h2 : b.latestCommit == commit
        · simp [h1, h2] at h
        · simp [h1, h2] at h
          exact ⟨b.latestCommit, h⟩
      · simp [h1] at h
    · exact ih e h

theorem reconcile_loop_nomatch (w : World) (today : Int) (name commit : String)
    (stored : Int) (bs : List Branch)
    (h : ∀ b ∈ bs, b.displayId ≠ name) :
    reconcile_loop w today name commit stored bs = (none, []) := by
  induction bs with
  | nil => rfl
  | cons b rest ih =>
    have hb : (b.displayId == name) = false := by
      simp only [beq_eq_false_iff_ne, ne_eq]
      exact h b (List.mem_cons_self b rest)
    have hrest := ih (fun x hx => h x (List.mem_cons_of_mem b hx))
    simp [reconcile_loop, hb, hrest]

theorem reconcile_loop_isSome (w : World) (today : Int) (name commit : String)
    (stored : Int) (bs : List Branch)
    (h : ∃ b ∈ bs, b.displayId = name) :
    ((reconcile_loop w today name commit stored bs).1).isSome = true := by
  induction bs with
  | nil => simp at h
  | cons b rest ih =>
    simp only [reconcile_loop]
    rcases h with ⟨b', hb', hname⟩
    rcases List.mem_cons.mp hb' with rfl | hmem
    · cases hr : (reconcile_loop w today name commit stored rest).1 with
      | some d => simp [hr]
      | none =>
        have hb : (b'.displayId == name) = true := beq_iff_eq.mpr hname
        by_cases h2 : b'.latestCommit == commit <;> simp [hr, hb, h2]
    · have := ih ⟨b', hmem, hname⟩
      cases hr : (reconcile_loop w today name commit stored rest).1 with
      | some d => simp [hr]
      | none => rw [hr] at this; simp at this

theorem delete_perms_loop_events_shape (w : World) (name : String) (ps : List Perm) :
    ∀ e ∈ (delete_perms_loop w name ps).1, ∃ i, e = Event.permDelete i := by
  induction ps with
  | nil => intro e he; simp [delete_perms_loop] at he
  | cons p rest ih =>
    intro e he
    simp only [delete_perms_loop] at he
    by_cases h1 : p.matcherDisplayId == name
    · by_cases h2 : w.permDeleteStatus p.permId ≠ 204
      · simp [h1, h2] at he
        exact ⟨p.permId, he⟩
      · simp [h1, h2] at he
        rcases he with h | h
        · exact ⟨p.permId, h⟩
        · exact ih e h
    · simp [h1] at he
      exact ih e he

theorem delete_branch_permissions_events_shape (w : World) (name : String) :
    ∀ e ∈ (delete_branch_permissions w name).1,
      e = Event.permGet ∨ ∃ i, e = Event.permDelete i := by
  intro e he
  by_cases h : w.permGetStatus ≠ 200
  · simp [delete_branch_permissions, h] at he
    exact Or.inl he
  · simp only [delete_branch_permissions, h, if_neg, ite_false] at he
    simp at he
    rcases he with h' | h'
    · exact Or.inl h'
    · exact Or.inr (delete_perms_loop_events_shape w name w.permissions e h')

theorem delete_branch_permissions_starts_permGet (w : World) (name : String) :
    ∃ tl, (delete_branch_permissions w name).1 = Event.permGet :: tl := by
  by_cases h : w.permGetStatus ≠ 200
  · exact ⟨[], by simp [delete_branch_permissions, h]⟩
  · exact ⟨(delete_perms_loop w name w.permissions).1, by simp [delete_branch_permissions, h]⟩

theorem delete_sequence_events_shape (w : World) (name commit : String) :
    ∀ e ∈ (delete_sequence w name commit).1,
      e = Event.permGet ∨ (∃ i, e = Event.permDelete i) ∨ e = Event.branchDelete name commit := by
  intro e he
  unfold delete_sequence at he
  cases hp : (delete_branch_permissions w name).2 with
  | error err =>
    rw [hp] at he
    simp only at he
    rcases delete_branch_permissions_events_shape w name e he with h | h
    · exact Or.inl h
    · exact Or.inr (Or.inl h)
  | ok u =>
    rw [hp] at he
    simp only [delete_branch] at he
    rcases List.mem_append.mp he with h | h
    · rcases delete_branch_permissions_events_shape w name e h with h' | h'
      · exact Or.inl h'
      · exact Or.inr (Or.inl h')
    · simp at h
      exact Or.inr (Or.inr h)

theorem delete_sequence_filter_commitLookup (w : World) (name commit : String) :
    (delete_sequence w name commit).1.filter Event.isCommitLookup = [] := by
  rw [List.filter_eq_nil_iff]
  intro e he
  rcases delete_sequence_events_shape w name commit e he with h | h | h
  · subst h; simp [Event.isCommitLookup]
  · rcases h with ⟨i, rfl⟩; simp [Event.isCommitLookup]
  · subst h; simp [Event.isCommitLookup]

theorem reconcile_loop_uniq (w : World) (today : Int) (name commit : String)
    (stored : Int) (bs : List Branch) (b : Branch)
    (huniq : bs.filter (fun x => x.displayId == name) = [b]) :
    reconcile_loop w today name commit stored bs =
      (if b.latestCommit == commit then (some stored, ([] : List Event))
       else (some (today - w.commitDate b.latestCommit),
         [Event.commitLookup b.latestCommit])) := by
  induction bs with
  | nil => simp at huniq
  | cons hd tl ih =>
    rw [List.filter_cons] at huniq
    by_cases h1 : (hd.displayId == name) = true
    · rw [if_pos h1] at huniq
      have hhd : hd = b := by
        injection huniq
      have htl : tl.filter (fun x => x.displayId == name) = [] := by
        injection huniq
      have hrest : reconcile_loop w today name commit stored tl = (none, []) := by
        apply reconcile_loop_nomatch
        intro x hx hc
        have := List.filter_eq_nil_iff.mp htl x hx
        simp [hc] at this
      subst hhd
      by_cases h2 : (hd.latestCommit == commit) = true
      · simp [reconcile_loop, h1, h2, hrest]
      · simp only [Bool.not_eq_true] at h2
        simp [reconcile_loop, h1, h2, hrest]
    · rw [if_neg h1] at huniq
      have hr := ih huniq
      by_cases h2 : (b.latestCommit == commit) = true
      · rw [if_pos h2] at hr
        simp only [Bool.not_eq_true] at h1
        simp [reconcile_loop, h1, hr, h2]
      · rw [if_neg h2] at hr
        simp only [Bool.not_eq_true] at h1 h2
        simp [reconcile_loop, h1, hr, h2]

theorem lookupState_setState (s : StateDoc) (k : String) (v : List ResultRow) :
    lookupState (setState s k v) k = some v := by
  induction s with
  | nil => simp [setState, lookupState]
  | cons p rest ih =>
    obtain ⟨k', v'⟩ := p
    by_cases h : (k' == k) = true
    · simp [setState, lookupState, h]
    · simp only [Bool.not_eq_true] at h
      simp [setState, lookupState, h, ih]

theorem gather_deletions_trace (w : World) (today : Int) (config : Config)
    (branches : List Branch) (rows : List ResultRow) :
    (gather_deletions w today config branches rows).1
      = (rows.map
          (fun r => (process_branches_for_deletion w today config r branches).1)).flatten := by
  induction rows with
  | nil => rfl
  | cons bi rest ih => simp [gather_deletions, ih]

theorem process_trace_filter (w : World) (today : Int) (config : Config)
    (bi : ResultRow) (branches : List Branch) :
    (process_branches_for_deletion w today config bi branches).1.filter Event.isCommitLookup
      = (reconcile_loop w today bi.branchName bi.commitRef
          bi.inactivityDays branches).2.filter Event.isCommitLookup := by
  unfold process_branches_for_deletion
  split
  · rfl
  · split
    · rfl
    · split_ifs
      · split
        · simp [List.filter_append, delete_sequence_filter_commitLookup]
        · simp [List.filter_append, delete_sequence_filter_commitLookup]
      · rfl

theorem process_eq_of_some (w : World) (today : Int) (config : Config)
    (bi : ResultRow) (branches : List Branch) (t delta : Int)
    (ht : get_threshold bi.branchName config = some t)
    (hd : (reconcile_loop w today bi.branchName bi.commitRef
        bi.inactivityDays branches).1 = some delta) :
    process_branches_for_deletion w today config bi branches =
      (if delta > t ∧ bi.status = "MARKED FOR DELETION" then
        match (delete_sequence w bi.branchName bi.commitRef).2 with
        | Except.error e =>
          ((reconcile_loop w today bi.branchName bi.commitRef
              bi.inactivityDays branches).2
            ++ (delete_sequence w bi.branchName bi.commitRef).1, Except.error e)
        | Except.ok st =>
          ((reconcile_loop w today bi.branchName bi.commitRef
              bi.inactivityDays branches).2
            ++ (delete_sequence w bi.branchName bi.commitRef).1,
            Except.ok ⟨bi.branchName, bi.commitRef, delta, st⟩)
      else
        ((reconcile_loop w today bi.branchName bi.commitRef
            bi.inactivityDays branches).2,
          Except.ok ⟨bi.branchName, bi.commitRef, delta, bi.status⟩)) := by
  unfold process_branches_for_deletion
  rw [ht, hd]

/-- C1: on delete day the destructive delete sequence runs only when the
(possibly recomputed) inactivity strictly exceeds the threshold and the
persisted disposition is MARKED FOR DELETION; in every other case the
branch keeps its stored status and no delete-sequence call (permission
GET/DELETE or branch DELETE) is made — the trace holds commit lookups
only. -/
theorem c1_delete_guard (w : World) (today : Int) (config : Config)
    (bi : ResultRow) (branches : List Branch) (t delta : Int)
    (ht : get_threshold bi.branchName config = some t)
    (hd : (reconcile_loop w today bi.branchName bi.commitRef
        bi.inactivityDays branches).1 = some delta) :
    (¬ (delta > t ∧ bi.status = "MARKED FOR DELETION") →
      (process_branches_for_deletion w today config bi branches).2
          = Except.ok ⟨bi.branchName, bi.commitRef, delta, bi.status⟩
        ∧ ∀ e ∈ (process_branches_for_deletion w today config bi branches).1,
            e.isCommitLookup = true)
    ∧ (∀ e ∈ (process_branches_for_deletion w today config bi branches).1,
        e.isCommitLookup = false → delta > t ∧ bi.status = "MARKED FOR DELETION") := by
  have hp := process_eq_of_some w today config bi branches t delta ht hd
  constructor
  · intro hc
    rw [hp, if_neg hc]
    refine ⟨rfl, ?_⟩
    intro e he
    rcases reconcile_loop_events_shape w today bi.branchName bi.commitRef
      bi.inactivityDays branches e he with ⟨c, rfl⟩
    rfl
  · intro e he hfalse
    by_cases hc : delta > t ∧ bi.status = "MARKED FOR DELETION"
    · exact hc
    · rw [hp, if_neg hc] at he
      rcases reconcile_loop_events_shape w today bi.branchName bi.commitRef
        bi.inactivityDays branches e he with ⟨c, rfl⟩
      simp [Event.isCommitLookup] at hfalse

/-- C1 witness: a previously RETAINED branch with unchanged commit `c2`
and stored inactivity 19 (threshold 45) is returned unchanged with no
delete-sequence call. -/
theorem c1_delete_guard_witness :
    (process_branches_for_deletion wZero 19 cfgStd rowRet liveRet).2
      = Except.ok ⟨"feature/x", "c2", 19, "RETAINED"⟩ := by
  exact ((c1_delete_guard wZero 19 cfgStd rowRet liveRet 45 19 (by rfl) (by rfl)).1
    (by decide)).1

/-- C4: a non-excluded branch is classified RETAINED when
`inactivityDays <= threshold` and MARKED FOR DELETION when
`inactivityDays > threshold`; in particular the boundary
`inactivityDays = threshold` is RETAINED. -/
theorem c4_boundary_inclusive (w : World) (today : Int) (config : Config)
    (b : Branch) (t : Int)
    (hex : config.branches_to_exclude.contains b.displayId = false)
    (ht : get_threshold b.displayId config = some t) :
    (filter_branches w today config b).2 =
      Except.ok (some ⟨b.displayId, b.latestCommit, today - w.commitDate b.latestCommit,
        if today - w.commitDate b.latestCommit ≤ t then "RETAINED"
        else "MARKED FOR DELETION"⟩)
    ∧ (today - w.commitDate b.latestCommit = t →
      (filter_branches w today config b).2 =
        Except.ok (some ⟨b.displayId, b.latestCommit, t, "RETAINED"⟩)) := by
  constructor
  · unfold filter_branches
    rw [hex, ht]
    simp
  · intro heq
    unfold filter_branches
    rw [hex, ht]
    simp only [Bool.false_eq_true, if_false, heq]
    rw [if_pos le_rfl]

/-- C4 witness: branch `feature/x` with commit age exactly the default
threshold of 45 days is RETAINED. -/
theorem c4_boundary_inclusive_witness :
    (filter_branches wZero 45 cfgStd bFeature).2 =
      Except.ok (some ⟨"feature/x", "c1", 45, "RETAINED"⟩) := by
  exact (c4_boundary_inclusive wZero 45 cfgStd bFeature 45 (by decide) (by rfl)).2 (by decide)

theorem process_eq_none_threshold (w : World) (today : Int) (config : Config)
    (bi : ResultRow) (branches : List Branch)
    (ht : get_threshold bi.branchName config = none) :
    process_branches_for_deletion w today config bi branches =
      ((reconcile_loop w today bi.branchName bi.commitRef
          bi.inactivityDays branches).2, Except.error "KeyError") := by
  unfold process_branches_for_deletion
  rw [ht]

theorem process_eq_none_delta (w : World) (today : Int) (config : Config)
    (bi : ResultRow) (branches : List Branch) (t : Int)
    (ht : get_threshold bi.branchName config = some t)
    (hd : (reconcile_loop w today bi.branchName bi.commitRef
        bi.inactivityDays branches).1 = none) :
    process_branches_for_deletion w today config bi branches =
      ((reconcile_loop w today bi.branchName bi.commitRef
          bi.inactivityDays branches).2, Except.error "UnboundLocalError: delta") := by
  unfold process_branches_for_deletion
  rw [ht, hd]

theorem delete_sequence_perm_error (w : World) (name commit e : String)
    (h : (delete_branch_permissions w name).2 = Except.error e) :
    delete_sequence w name commit = ((delete_branch_permissions w name).1, Except.error e) := by
  unfold delete_sequence
  rw [h]

theorem delete_sequence_ok_trace (w : World) (name commit st : String)
    (h : (delete_sequence w name commit).2 = Except.ok st) :
    (delete_sequence w name commit).1
        = (delete_branch_permissions w name).1 ++ [Event.branchDelete name commit]
      ∧ st = "DELETED" := by
  unfold delete_sequence at h ⊢
  cases hp : (delete_branch_permissions w name).2 with
  | error e => rw [hp] at h; simp at h
  | ok u =>
    rw [hp] at h
    have h' : (delete_branch w name commit).2 = Except.ok st := h
    refine ⟨rfl, ?_⟩
    unfold delete_branch at h'
    by_cases hb : w.branchDeleteStatus name ≠ 204
    · simp [hb] at h'
    · simp [hb] at h'
      exact h'.symm

/-- C2: on delete day, a flagged branch whose unique live record carries
the same commit reference is reconciled from the stored inactivity with
no commit-date lookup, while a changed reference triggers exactly one
fresh lookup (of the new reference) and a recomputation against today:
a commit lookup happens iff the reference changed. -/
theorem c2_drift_lookup (w : World) (today : Int) (config : Config)
    (bi : ResultRow) (branches : List Branch) (b : Branch)
    (huniq : branches.filter (fun x => x.displayId == bi.branchName) = [b]) :
    (b.latestCommit = bi.commitRef →
      (process_branches_for_deletion w today config bi branches).1.filter
          Event.isCommitLookup = []
      ∧ (reconcile_loop w today bi.branchName bi.commitRef
          bi.inactivityDays branches).1 = some bi.inactivityDays)
    ∧ (b.latestCommit ≠ bi.commitRef →
      (process_branches_for_deletion w today config bi branches).1.filter
          Event.isCommitLookup = [Event.commitLookup b.latestCommit]
      ∧ (reconcile_loop w today bi.branchName bi.commitRef
          bi.inactivityDays branches).1 = some (today - w.commitDate b.latestCommit)) := by
  have hu := reconcile_loop_uniq w today bi.branchName bi.commitRef
    bi.inactivityDays branches b huniq
  have hf := process_trace_filter w today config bi branches
  constructor
  · intro hsame
    have hb : (b.latestCommit == bi.commitRef) = true := beq_iff_eq.mpr hsame
    rw [if_pos hb] at hu
    refine ⟨?_, ?_⟩
    · rw [hf, hu]
      rfl
    · rw [hu]
  · intro hdiff
    have hb : (b.latestCommit == bi.commitRef) = false := beq_eq_false_iff_ne.mpr hdiff
    rw [if_neg (by simp [hb])] at hu
    refine ⟨?_, ?_⟩
    · rw [hf, hu]
      rfl
    · rw [hu]

/-- C2 witness: flagged branch `b1` recorded at commit `c1` now lives at
commit `c9`; reconciliation makes exactly one commit lookup (of `c9`) and
recomputes the inactivity against today (day 10). -/
theorem c2_drift_lookup_witness :
    (process_branches_for_deletion wZero 10 cfgStd rowB1 liveDrift).1.filter
        Event.isCommitLookup = [Event.commitLookup "c9"]
    ∧ (reconcile_loop wZero 10 "b1" "c1" 60 liveDrift).1 = some 10 := by
  have h := (c2_drift_lookup wZero 10 cfgStd rowB1 liveDrift ⟨"b1", "c9"⟩ (by rfl)).2
    (by decide)
  exact ⟨h.1, h.2⟩

/-- C3: whenever a branch is actually deleted, the permission step (its
GET, and any permission DELETEs) appears in the trace strictly before the
branch DELETE; and whenever the permission step fails with an error (a
non-success response, as opposed to simply finding no matching rule), no
branch DELETE is ever issued for that branch and the error is surfaced on
the delete path. -/
theorem c3_perm_before_delete (w : World) (today : Int) (config : Config)
    (bi : ResultRow) (branches : List Branch)
    (hstat : bi.status ≠ "DELETED") :
    (∀ row, (process_branches_for_deletion w today config bi branches).2 = Except.ok row →
      row.status = "DELETED" →
      ∃ pre, (process_branches_for_deletion w today config bi branches).1
          = pre ++ [Event.branchDelete bi.branchName bi.commitRef]
        ∧ Event.permGet ∈ pre)
    ∧ (∀ e, (delete_branch_permissions w bi.branchName).2 = Except.error e →
      (∀ n r, Event.branchDelete n r ∉ (process_branches_for_deletion w today config bi branches).1)
      ∧ ∀ t delta, get_threshold bi.branchName config = some t →
          (reconcile_loop w today bi.branchName bi.commitRef
              bi.inactivityDays branches).1 = some delta →
          delta > t → bi.status = "MARKED FOR DELETION" →
          (process_branches_for_deletion w today config bi branches).2 = Except.error e) := by
  constructor
  · intro row hok hdel
    cases ht : get_threshold bi.branchName config with
    | none =>
      rw [process_eq_none_threshold w today config bi branches ht] at hok
      simp at hok
    | some t =>
      cases hd : (reconcile_loop w today bi.branchName bi.commitRef
          bi.inactivityDays branches).1 with
      | none =>
        rw [process_eq_none_delta w today config bi branches t ht hd] at hok
        simp at hok
      | some delta =>
        have hp := process_eq_of_some w today config bi branches t delta ht hd
        by_cases hc : delta > t ∧ bi.status = "MARKED FOR DELETION"
        · rw [hp, if_pos hc] at hok ⊢
          cases hds : (delete_sequence w bi.branchName bi.commitRef).2 with
          | error e => rw [hds] at hok; simp at hok
          | ok st =>
            rcases delete_sequence_ok_trace w bi.branchName bi.commitRef st hds with ⟨htr, _⟩
            refine ⟨(reconcile_loop w today bi.branchName bi.commitRef
              bi.inactivityDays branches).2 ++ (delete_branch_permissions w bi.branchName).1, ?_, ?_⟩
            · show (reconcile_loop w today bi.branchName bi.commitRef
                  bi.inactivityDays branches).2
                ++ (delete_sequence w bi.branchName bi.commitRef).1 = _
              rw [htr, List.append_assoc]
            · rcases delete_branch_permissions_starts_permGet w bi.branchName with ⟨tl, htl⟩
              rw [htl]
              simp
        · rw [hp, if_neg hc] at hok
          simp at hok
          rw [← hok] at hdel
          exact absurd hdel hstat
  · intro e he
    constructor
    · intro n r hmem
      cases ht : get_threshold bi.branchName config with
      | none =>
        rw [process_eq_none_threshold w today config bi branches ht] at hmem
        rcases reconcile_loop_events_shape w today bi.branchName bi.commitRef
          bi.inactivityDays branches _ hmem with ⟨c, hc⟩
        simp at hc
      | some t =>
        cases hd : (reconcile_loop w today bi.branchName bi.commitRef
            bi.inactivityDays branches).1 with
        | none =>
          rw [process_eq_none_delta w today config bi branches t ht hd] at hmem
          rcases reconcile_loop_events_shape w today bi.branchName bi.commitRef
            bi.inactivityDays branches _ hmem with ⟨c, hc⟩
          simp at hc
        | some delta =>
          have hp := process_eq_of_some w today config bi branches t delta ht hd
          by_cases hc : delta > t ∧ bi.status = "MARKED FOR DELETION"
          · rw [hp, if_pos hc] at hmem
            rw [delete_sequence_perm_error w bi.branchName bi.commitRef e he] at hmem
            cases hds : (delete_branch_permissions w bi.branchName).2 with
            | error e2 =>
              rw [he] at hds
              cases hds
              have hmem' : Event.branchDelete n r ∈
                  (reconcile_loop w today bi.branchName bi.commitRef
                    bi.inactivityDays branches).2
                  ++ (delete_branch_permissions w bi.branchName).1 := hmem
              rcases List.mem_append.mp hmem' with hm | hm
              · rcases reconcile_loop_events_shape w today bi.branchName bi.commitRef
                  bi.inactivityDays branches _ hm with ⟨c, hcc⟩
                simp at hcc
              · rcases delete_branch_permissions_events_shape w bi.branchName _ hm with hcc | ⟨i, hcc⟩
                · simp at hcc
                · simp at hcc
            | ok u => rw [he] at hds; cases hds
          · rw [hp, if_neg hc] at hmem
            rcases reconcile_loop_events_shape w today bi.branchName bi.commitRef
              bi.inactivityDays branches _ hmem with ⟨c, hcc⟩
            simp at hcc
    · intro t delta ht hd hgt hmk
      have hp := process_eq_of_some w today config bi branches t delta ht hd
      rw [hp, if_pos ⟨hgt, hmk⟩]
      rw [delete_sequence_perm_error w bi.branchName bi.commitRef e he]

/-- C3 witness: for `stale/x` (stored MARKED FOR DELETION, inactivity 99,
threshold 45, commit unchanged) a failing permission GET surfaces the
error and no branch DELETE is ever issued. -/
theorem c3_perm_before_delete_witness :
    Event.branchDelete "stale/x" "c7"
        ∉ (process_branches_for_deletion wPermFail 0 cfgStd rowStale liveStale).1
    ∧ (process_branches_for_deletion wPermFail 0 cfgStd rowStale liveStale).2
        = Except.error "branch permissions lookup failed" := by
  have h := (c3_perm_before_delete wPermFail 0 cfgStd rowStale liveStale
    (by decide)).2 "branch permissions lookup failed" (by rfl)
  exact ⟨h.1 "stale/x" "c7", h.2 45 99 (by rfl) (by rfl) (by decide) (by rfl)⟩

/-- C5 counterexample: with today = day 0 and a commit dated day 5 (in
the future), `filter_branches` stores inactivityDays = -5, a negative
value — not the claimed clamped 0. -/
theorem c5_negative_inactivity_counterexample :
    (filter_branches wFuture 0 cfgStd bFeature).2
        = Except.ok (some ⟨"feature/x", "c1", -5, "RETAINED"⟩)
    ∧ ¬ ((0 : Int) ≤ -5) := by
  exact ⟨by rfl, by decide⟩

/-- C5 amended: a commit date strictly after today yields a *negative*
`inactivityDays = today - commitDate` (the code never clamps to 0);
since a negative delta cannot exceed a non-negative threshold the branch
is classified RETAINED and the run continues (non-fatal). -/
theorem c5_future_commit_negative (w : World) (today : Int) (config : Config)
    (b : Branch) (t : Int)
    (hex : config.branches_to_exclude.contains b.displayId = false)
    (ht : get_threshold b.displayId config = some t)
    (hfuture : today < w.commitDate b.latestCommit)
    (htnn : 0 ≤ t) :
    (filter_branches w today config b).2 =
      Except.ok (some ⟨b.displayId, b.latestCommit,
        today - w.commitDate b.latestCommit, "RETAINED"⟩)
    ∧ today - w.commitDate b.latestCommit < 0 := by
  refine ⟨?_, by omega⟩
  unfold filter_branches
  rw [hex, ht]
  simp only [Bool.false_eq_true, if_false]
  rw [if_pos (by omega : today - w.commitDate b.latestCommit ≤ t)]

/-- C5 amended witness: commit dated day 5, today day 0, threshold 45:
the stored inactivity is -5 (negative) and the branch is RETAINED. -/
theorem c5_future_commit_negative_witness :
    (filter_branches wFuture 0 cfgStd bFeature).2
        = Except.ok (some ⟨"feature/x", "c1", (0 : Int) - 5, "RETAINED"⟩)
    ∧ (0 : Int) - 5 < 0 := by
  exact c5_future_commit_negative wFuture 0 cfgStd bFeature 45
    (by decide) (by rfl) (by decide) (by decide)

/-- C6 counterexample: in a two-branch delete batch where deleting `b1`
fails (HTTP 500) while `b2`'s own processing would succeed with DELETED,
the batch `gather` yields an error instead of an outcome list — `b2`
receives no outcome from the batch, contradicting the claim that the
batch completes with per-branch outcomes. -/
theorem c6_batch_abort_counterexample :
    (gather_deletions wDelFail 0 cfgStd liveB [rowB1, rowB2]).2
        = Except.error "Error deleting b1 branch"
    ∧ (process_branches_for_deletion wDelFail 0 cfgStd rowB2 liveB).2
        = Except.ok ⟨"b2", "c2", 60, "DELETED"⟩ := by
  exact ⟨by rfl, by rfl⟩

/-- C6 amended: when one flagged branch's deletion fails, every branch's
remote calls still execute (the trace is the concatenation of all
per-branch traces, since the no-await coroutines all run), but the
batch's gather re-raises the failure: it produces an error — and hence no
outcome list for the repository — and in `main` this exception aborts the
run. -/
theorem c6_failure_aborts_batch (w : World) (today : Int) (config : Config)
    (branches : List Branch) (rows : List ResultRow) (bi : ResultRow) (e : String)
    (hmem : bi ∈ rows)
    (hfail : (process_branches_for_deletion w today config bi branches).2
        = Except.error e) :
    (∃ e2, (gather_deletions w today config branches rows).2 = Except.error e2)
    ∧ (gather_deletions w today config branches rows).1
        = (rows.map
            (fun r => (process_branches_for_deletion w today config r branches).1)).flatten := by
  refine ⟨?_, gather_deletions_trace w today config branches rows⟩
  induction rows with
  | nil => simp at hmem
  | cons hd tl ih =>
    rcases List.mem_cons.mp hmem with rfl | hmem'
    · exact ⟨e, by simp [gather_deletions, hfail]⟩
    · rcases ih hmem' with ⟨e2, he2⟩
      cases hph : (process_branches_for_deletion w today config hd branches).2 with
      | error e3 => exact ⟨e3, by simp [gather_deletions, hph]⟩
      | ok row => exact ⟨e2, by simp [gather_deletions, hph, he2]⟩

/-- C6 amended witness: the failing two-branch batch yields an error (no
outcome list) while its trace still contains both branches' calls. -/
theorem c6_failure_aborts_batch_witness :
    (∃ e2, (gather_deletions wDelFail 0 cfgStd liveB [rowB1, rowB2]).2
        = Except.error e2)
    ∧ (gather_deletions wDelFail 0 cfgStd liveB [rowB1, rowB2]).1
        = ([rowB1, rowB2].map
            (fun r => (process_branches_for_deletion wDelFail 0 cfgStd r liveB).1)).flatten := by
  exact c6_failure_aborts_batch wDelFail 0 cfgStd liveB [rowB1, rowB2] rowB1
    "Error deleting b1 branch" (by simp) (by rfl)

theorem write_some_none (data : StateDoc) (k : String) (v : List ResultRow)
    (h : lookupState data k = none) :
    write_to_json (some data) k v = setState data k v := by
  show (match lookupState data k with
    | none => setState data k v
    | some prior => if prior.length ≠ v.length then setState data k v else data)
    = setState data k v
  rw [h]

theorem write_some_some (data : StateDoc) (k : String) (v : List ResultRow)
    (prior : List ResultRow) (h : lookupState data k = some prior) :
    write_to_json (some data) k v
      = if prior.length ≠ v.length then setState data k v else data := by
  show (match lookupState data k with
    | none => setState data k v
    | some prior => if prior.length ≠ v.length then setState data k v else data)
    = if prior.length ≠ v.length then setState data k v else data
  rw [h]

/-- C7: the state-store merge assigns `state[repository] = newResults`
exactly when the repository is absent or the stored entry's length
differs, leaving the entry untouched otherwise; consequently two merges
with equal-length result sets leave the document after the second call
identical to the document after the first. -/
theorem c7_merge_idempotent (st : Option StateDoc) (data : StateDoc)
    (repository : String) (r1 r2 : List ResultRow)
    (hlen : r1.length = r2.length) :
    ((lookupState data repository = none →
        write_to_json (some data) repository r1 = setState data repository r1)
      ∧ (∀ prior, lookupState data repository = some prior →
          (prior.length ≠ r1.length →
            write_to_json (some data) repository r1 = setState data repository r1)
          ∧ (prior.length = r1.length →
            write_to_json (some data) repository r1 = data)))
    ∧ write_to_json (some (write_to_json st repository r1)) repository r2
        = write_to_json st repository r1 := by
  constructor
  · constructor
    · intro hnone
      exact write_some_none data repository r1 hnone
    · intro prior hprior
      constructor
      · intro hne
        rw [write_some_some data repository r1 prior hprior, if_pos hne]
      · intro heq
        rw [write_some_some data repository r1 prior hprior, if_neg (by omega)]
  · cases st with
    | none =>
      have h0 : write_to_json none repository r1 = [(repository, r1)] := rfl
      rw [h0]
      have h1 : lookupState [(repository, r1)] repository = some r1 := by
        simp [lookupState]
      rw [write_some_some [(repository, r1)] repository r2 r1 h1, if_neg (by omega)]
    | some data =>
      cases hl : lookupState data repository with
      | none =>
        rw [write_some_none data repository r1 hl]
        rw [write_some_some (setState data repository r1) repository r2 r1
          (lookupState_setState data repository r1), if_neg (by omega)]
      | some prior =>
        by_cases hp : prior.length ≠ r1.length
        · rw [write_some_some data repository r1 prior hl, if_pos hp]
          rw [write_some_some (setState data repository r1) repository r2 r1
            (lookupState_setState data repository r1), if_neg (by omega)]
        · rw [write_some_some data repository r1 prior hl, if_neg hp]
          rw [write_some_some data repository r2 prior hl, if_neg (by omega)]

/-- C7 witness: merging a one-row result set for `repoA`, then merging a
different one-row result set, leaves the document of the first merge
unchanged. -/
theorem c7_merge_idempotent_witness :
    write_to_json (some (write_to_json none "repoA" [rowB1])) "repoA" [rowB2]
        = write_to_json none "repoA" [rowB1] := by
  exact (c7_merge_idempotent none [] "repoA" [rowB1] [rowB2] (by rfl)).2

theorem contains_of_mem {l : List String} {a : String} (h : a ∈ l) :
    l.contains a = true := by
  induction l with
  | nil => simp at h
  | cons x xs ih =>
    rcases List.mem_cons.mp h with rfl | h'
    · simp [List.contains_cons]
    · simp [List.contains_cons, ih h']
      exact Or.inr h'

theorem gather_scan_rows_shape (w : World) (today : Int) (config : Config) :
    ∀ branches os, (gather_scan w today config branches).2 = Except.ok os →
      ∀ o ∈ os, ∀ row, o = some row →
        config.branches_to_exclude.contains row.branchName = false := by
  intro branches
  induction branches with
  | nil =>
    intro os hos o ho row hrow
    simp [gather_scan] at hos
    subst hos
    simp at ho
  | cons b rest ih =>
    intro os hos o ho row hrow
    unfold gather_scan at hos
    cases hf : (filter_branches w today config b).2 with
    | error e => rw [hf] at hos; simp at hos
    | ok o1 =>
      rw [hf] at hos
      cases hg : (gather_scan w today config rest).2 with
      | error e => rw [hg] at hos; simp at hos
      | ok os1 =>
        rw [hg] at hos
        simp at hos
        subst hos
        rcases List.mem_cons.mp ho with rfl | hmem
        · subst hrow
          unfold filter_branches at hf
          by_cases hex : config.branches_to_exclude.contains b.displayId = true
          · rw [if_pos hex] at hf
            simp at hf
          · rw [if_neg hex] at hf
            cases hth : get_threshold b.displayId config with
            | none => rw [hth] at hf; simp at hf
            | some t =>
              rw [hth] at hf
              simp at hf
              rw [← hf]
              simpa using hex
        · exact ih os1 hg o hmem row hrow

/-- C8: on scan day, `master`, `develop` and every configured excluded
name are in the effective exclusion list, no classification row is ever
produced for any excluded name (regardless of commit age, since the
world `w` is arbitrary), and no such row appears in the freshly persisted
state entry. -/
theorem c8_excluded_never_classified (w : World) (today : Int)
    (ex : List String) (th : List (String × Int)) (branches : List Branch)
    (rows : List ResultRow) (repository name : String)
    (hok : (scan_repository w today (load_config ex th) branches).2 = Except.ok rows)
    (hname : (load_config ex th).branches_to_exclude.contains name = true) :
    ((load_config ex th).branches_to_exclude.contains "master" = true
      ∧ (load_config ex th).branches_to_exclude.contains "develop" = true
      ∧ ∀ n ∈ ex, (load_config ex th).branches_to_exclude.contains n = true)
    ∧ (∀ row ∈ rows, row.branchName ≠ name)
    ∧ (∀ rows2, lookupState (write_to_json none repository rows) repository
          = some rows2 → ∀ row ∈ rows2, row.branchName ≠ name) := by
  have hmain : ∀ row ∈ rows, row.branchName ≠ name := by
    intro row hrow heq
    unfold scan_repository at hok
    cases hg : (gather_scan w today (load_config ex th) branches).2 with
    | error e => rw [hg] at hok; simp at hok
    | ok os =>
      rw [hg] at hok
      simp at hok
      subst hok
      rcases List.mem_filterMap.mp hrow with ⟨o, ho, hor⟩
      have hrr := gather_scan_rows_shape w today (load_config ex th) branches os hg o ho row hor
      rw [heq] at hrr
      rw [hname] at hrr
      cases hrr
  refine ⟨⟨rfl, rfl, ?_⟩, hmain, ?_⟩
  · intro n hn
    have : n ∈ (load_config ex th).branches_to_exclude := by
      simp [load_config, hn]
    exact contains_of_mem this
  · intro rows2 h2 row hrow
    have h0 : write_to_json none repository rows = [(repository, rows)] := rfl
    rw [h0] at h2
    have h1 : lookupState [(repository, rows)] repository = some rows := by
      simp [lookupState]
    rw [h1] at h2
    cases h2
    exact hmain row hrow

/-- C8 witness: the live list holds `master` (with some commit `cm`) and
`feature/x`; the scan classifies only `feature/x`, and its row set holds
no row named `master`. -/
theorem c8_excluded_never_classified_witness :
    (⟨"feature/x", "c2", 100, "MARKED FOR DELETION"⟩ : ResultRow).branchName
      ≠ "master" := by
  exact (c8_excluded_never_classified wZero 100 [] [("release", 30), ("default", 45)]
    branchesWithMaster [⟨"feature/x", "c2", 100, "MARKED FOR DELETION"⟩]
    "repoA" "master" (by rfl) (by rfl)).2.1
    ⟨"feature/x", "c2", 100, "MARKED FOR DELETION"⟩ (by simp)

/-- C9: `main` evaluates `os.path("results")` — calling the `os.path`
module object — before entering the repository loop, so every invocation
fails with a TypeError: the run exits with status 1 and no per-repository
event (classification or deletion) ever happens, for any inputs. -/
theorem c9_os_path_type_error (resultsDirExists is_friday : Bool)
    (processRepo : String → List MainEvent) (repositories : List String) :
    (main_run resultsDirExists is_friday processRepo repositories).2
        = Except.error "TypeError: module object is not callable"
    ∧ program_exit_code resultsDirExists is_friday processRepo repositories = 1
    ∧ ∀ repo e, MainEvent.repoEvent repo e
        ∉ (main_run resultsDirExists is_friday processRepo repositories).1 := by
  refine ⟨rfl, rfl, ?_⟩
  intro repo e
  unfold main_run
  by_cases h : (resultsDirExists && !is_friday) = true
  · simp [os_path_call, h]
  · simp [os_path_call, h]

/-- C10: when a persisted flagged branch no longer appears in the live
branch list, `process_branches_for_deletion` reaches the delete check
with `delta` unassigned and fails with UnboundLocalError instead of
producing an outcome; conversely, whenever the branch is still present
in a live list, `delta` is always assigned. -/
theorem c10_missing_branch_unbound (w : World) (today : Int) (config : Config)
    (bi : ResultRow) (branches : List Branch) (t : Int)
    (ht : get_threshold bi.branchName config = some t)
    (hmiss : ∀ b ∈ branches, b.displayId ≠ bi.branchName) :
    (process_branches_for_deletion w today config bi branches).2
        = Except.error "UnboundLocalError: delta"
    ∧ ∀ branches2 b2, b2 ∈ branches2 → b2.displayId = bi.branchName →
        ∃ d, (reconcile_loop w today bi.branchName bi.commitRef
            bi.inactivityDays branches2).1 = some d := by
  constructor
  · have hrec := reconcile_loop_nomatch w today bi.branchName bi.commitRef
      bi.inactivityDays branches hmiss
    have hd : (reconcile_loop w today bi.branchName bi.commitRef
        bi.inactivityDays branches).1 = none := by rw [hrec]
    rw [process_eq_none_delta w today config bi branches t ht hd]
  · intro branches2 b2 hmem heq
    have hs := reconcile_loop_isSome w today bi.branchName bi.commitRef
      bi.inactivityDays branches2 ⟨b2, hmem, heq⟩
    exact Option.isSome_iff_exists.mp hs

/-- C10 witness: stored branch `gone` is absent from the live list
`[other]`, so its delete-day processing fails with UnboundLocalError. -/
theorem c10_missing_branch_unbound_witness :
    (process_branches_for_deletion wZero 0 cfgStd rowGone liveOther).2
        = Except.error "UnboundLocalError: delta" := by
  exact (c10_missing_branch_unbound wZero 0 cfgStd rowGone liveOther 45
    (by rfl) (by decide)).1
